import Mathlib

/-!
Verification of the people-notebook birthday reminder logic.

Shallow embedding of `src/app/main.py` (functions `_safe_date`,
`_send_telegram`, `_check_birthdays_and_notify`, `person_delete`,
`person_detail`, `_safe_remove_file`) and `src/app/utils.py`
(`calc_age`).  Python `datetime.date` values are modelled as triples of
integers; a raised `ValueError` from the `date` constructor is modelled
as `none`.  Python integers are Lean `Int`.
-/

namespace Notebook

/-- A `datetime.date` value: a (year, month, day) triple.  Only triples
accepted by the `date` constructor (see `isValidDate`) are produced by
the embedded code. -/
structure PyDate where
  year : Int
  month : Int
  day : Int
deriving DecidableEq

/-- Gregorian leap-year rule used by `datetime`. -/
def isLeap (y : Int) : Bool :=
  y % 4 == 0 && (y % 100 != 0 || y % 400 == 0)

/-- Length of a month, as `datetime` computes it. -/
def daysInMonth (y m : Int) : Int :=
  if m = 2 then (if isLeap y then 29 else 28)
  else if m = 4 ∨ m = 6 ∨ m = 9 ∨ m = 11 then 30
  else 31

/-- The triples accepted by Python's `date(year, month, day)` constructor:
`MINYEAR = 1 ≤ year ≤ MAXYEAR = 9999`, `1 ≤ month ≤ 12`,
`1 ≤ day ≤ ` length of the month. -/
def isValidDate (y m d : Int) : Prop :=
  1 ≤ y ∧ y ≤ 9999 ∧ 1 ≤ m ∧ m ≤ 12 ∧ 1 ≤ d ∧ d ≤ daysInMonth y m

instance (y m d : Int) : Decidable (isValidDate y m d) := by
  unfold isValidDate; exact inferInstance

/-- `date(y, m, d)`: `none` models a raised `ValueError`. -/
def dateOf (y m d : Int) : Option PyDate :=
  if isValidDate y m d then some ⟨y, m, d⟩ else none

/-- Count-down kernel of `_safe_date`'s `while` loop for a positive
starting day `n`: try `date(y, m, n)`; on `ValueError` decrement the
day, and when it reaches zero fall back to `date(y, m, 1)`. -/
def safeDateNat (y m : Int) : Nat → Option PyDate
  | 0 => dateOf y m 1
  | n + 1 =>
    if isValidDate y m ((n : Int) + 1) then some ⟨y, m, (n : Int) + 1⟩
    else safeDateNat y m n

/-- `_safe_date(year, month, day)` (src/app/main.py lines 83-92).  A
non-positive `day` fails the first `date` call and immediately reaches
the `day <= 0` fallback `date(year, month, 1)`; a positive `day` runs
the decrementing loop. -/
def safe_date (y m day : Int) : Option PyDate :=
  if day ≤ 0 then dateOf y m 1 else safeDateNat y m day.toNat

/-- The year/month preconditions under which the `date` constructor can
succeed at all (for some day). -/
def monthYearOk (y m : Int) : Prop :=
  1 ≤ y ∧ y ≤ 9999 ∧ 1 ≤ m ∧ m ≤ 12

instance (y m : Int) : Decidable (monthYearOk y m) := by
  unfold monthYearOk; exact inferInstance

lemma daysInMonth_pos (y m : Int) : 1 ≤ daysInMonth y m := by
  unfold daysInMonth; split_ifs <;> omega

lemma daysInMonth_le (y m : Int) : daysInMonth y m ≤ 31 := by
  unfold daysInMonth; split_ifs <;> omega

lemma safeDateNat_eq (y m : Int) (n : Nat) :
    safeDateNat y m n =
      if monthYearOk y m then
        some ⟨y, m, if n = 0 then 1 else max 1 (min (n : Int) (daysInMonth y m))⟩
      else none := by
  induction n with
  | zero =>
    have hd := daysInMonth_pos y m
    by_cases h : monthYearOk y m
    · have hv : isValidDate y m 1 := by
        unfold monthYearOk at h; unfold isValidDate; omega
      simp [safeDateNat, dateOf, hv, h]
    · have hv : ¬ isValidDate y m 1 := by
        unfold monthYearOk at h; unfold isValidDate; omega
      simp [safeDateNat, dateOf, hv, h]
  | succ n ih =>
    have hd := daysInMonth_pos y m
    by_cases h : monthYearOk y m
    · by_cases hv : isValidDate y m ((n : Int) + 1)
      · have hmax : max 1 (min ((n : Int) + 1) (daysInMonth y m)) = (n : Int) + 1 := by
          unfold isValidDate at hv; omega
        simp [safeDateNat, hv, h, hmax]
      · have hnv : ¬ ((n : Int) + 1 ≤ daysInMonth y m) := by
          unfold monthYearOk at h; unfold isValidDate at hv; omega
        rcases Nat.eq_zero_or_pos n with h0 | h0
        · subst h0
          exfalso
          simp at hnv
          omega
        · have hn0 : n ≠ 0 := by omega
          have hstep : safeDateNat y m (n + 1) = safeDateNat y m n := by
            simp [safeDateNat, hv]
          rw [hstep, ih]
          simp only [h, if_true, hn0, if_false, Nat.succ_ne_zero]
          have : max 1 (min ((n : Int)) (daysInMonth y m)) =
              max 1 (min ((n : Int) + 1) (daysInMonth y m)) := by
            omega
          rw [this]
          norm_cast
    · have hv : ¬ isValidDate y m ((n : Int) + 1) := by
        unfold monthYearOk at h; unfold isValidDate; omega
      have hstep : safeDateNat y m (n + 1) = safeDateNat y m n := by
        simp [safeDateNat, hv]
      rw [hstep, ih]
      simp [h]

/-- Closed form of `_safe_date`: when year and month are in range the
loop clamps the day into `1 .. daysInMonth`, otherwise every `date`
call (the fallback included) raises. -/
lemma safe_date_eq (y m day : Int) :
    safe_date y m day =
      if monthYearOk y m then some ⟨y, m, max 1 (min day (daysInMonth y m))⟩
      else none := by
  unfold safe_date
  have hd := daysInMonth_pos y m
  by_cases hday : day ≤ 0
  · have hmax : max 1 (min day (daysInMonth y m)) = 1 := by omega
    rw [if_pos hday, hmax]
    by_cases h : monthYearOk y m
    · have hv : isValidDate y m 1 := by
        unfold monthYearOk at h; unfold isValidDate; omega
      simp [dateOf, hv, h]
    · have hv : ¬ isValidDate y m 1 := by
        unfold monthYearOk at h; unfold isValidDate; omega
      simp [dateOf, hv, h]
  · rw [if_neg hday, safeDateNat_eq]
    have h1 : day.toNat ≠ 0 := by omega
    have h2 : ((day.toNat : Int)) = day := by omega
    simp [h1, h2]

lemma safe_date_ok (y m day : Int) (h : monthYearOk y m) :
    safe_date y m day = some ⟨y, m, max 1 (min day (daysInMonth y m))⟩ := by
  rw [safe_date_eq, if_pos h]

lemma safe_date_none (y m day : Int) (h : ¬ monthYearOk y m) :
    safe_date y m day = none := by
  rw [safe_date_eq, if_neg h]

/-- Every date `_safe_date` produces is valid, keeps the requested year
and month, and has a day in `1 .. daysInMonth`. -/
lemma safe_date_some (y m day : Int) (b : PyDate)
    (h : safe_date y m day = some b) :
    b.year = y ∧ b.month = m ∧ isValidDate b.year b.month b.day := by
  rw [safe_date_eq] at h
  have hd := daysInMonth_pos y m
  by_cases hok : monthYearOk y m
  · rw [if_pos hok] at h
    cases h
    unfold monthYearOk at hok
    refine ⟨rfl, rfl, ?_⟩
    unfold isValidDate
    simp only
    omega
  · rw [if_neg hok] at h
    cases h

/-- Python date comparison `a < b` (lexicographic on the components,
which coincides with chronological order on valid dates). -/
def dateLt (a b : PyDate) : Bool :=
  decide (a.year < b.year) ||
    (a.year == b.year &&
      (decide (a.month < b.month) ||
        (a.month == b.month && decide (a.day < b.day))))

lemma dateLt_iff (a b : PyDate) :
    dateLt a b = true ↔
      (a.year < b.year ∨
        (a.year = b.year ∧
          (a.month < b.month ∨ (a.month = b.month ∧ a.day < b.day)))) := by
  unfold dateLt
  simp [Bool.or_eq_true, Bool.and_eq_true, decide_eq_true_eq, beq_iff_eq]

/-- Python date comparison `a <= b`. -/
def dateLe (a b : PyDate) : Prop :=
  dateLt a b = true ∨ a = b

lemma dateLe_of_not_lt (a b : PyDate) (h : ¬ dateLt a b = true) : dateLe b a := by
  rw [dateLt_iff] at h
  push_neg at h
  obtain ⟨h1, h2⟩ := h
  by_cases hy : a.year = b.year
  · obtain ⟨h3, h4⟩ := h2 hy
    by_cases hm : a.month = b.month
    · obtain h5 := h4 hm
      by_cases hd : a.day = b.day
      · right
        cases a; cases b
        simp only at hy hm hd
        subst hy; subst hm; subst hd; rfl
      · left
        rw [dateLt_iff]
        omega
    · left
      rw [dateLt_iff]
      omega
  · left
    rw [dateLt_iff]
    omega

lemma dateLt_of_year_lt (a b : PyDate) (h : a.year < b.year) :
    dateLt a b = true := by
  rw [dateLt_iff]; omega

/-- Days from the month starts preceding month `m` (ordinary year). -/
def daysBeforeMonthTable (m : Int) : Int :=
  if m ≤ 1 then 0 else if m = 2 then 31 else if m = 3 then 59
  else if m = 4 then 90 else if m = 5 then 120 else if m = 6 then 151
  else if m = 7 then 181 else if m = 8 then 212 else if m = 9 then 243
  else if m = 10 then 273 else if m = 11 then 304 else 334

/-- Proleptic-Gregorian ordinal of a date (`date.toordinal`), used so
that `(a - b).days` becomes a plain integer subtraction. -/
def toOrdinal (a : PyDate) : Int :=
  365 * (a.year - 1) + (a.year - 1) / 4 - (a.year - 1) / 100 + (a.year - 1) / 400
    + daysBeforeMonthTable a.month
    + (if 2 < a.month ∧ isLeap a.year then 1 else 0)
    + a.day

/-- `(a - b).days` for two Python dates. -/
def daysBetween (a b : PyDate) : Int :=
  toOrdinal a - toOrdinal b

/-- Python truthiness of an optional integer field: `None` and `0` are
falsy. -/
def truthy : Option Int → Bool
  | none => false
  | some v => v != 0

/-- Python lexicographic comparison of two integer pairs, as used in
`calc_age`. -/
def pairLt (a b : Int × Int) : Bool :=
  decide (a.1 < b.1) || (a.1 == b.1 && decide (a.2 < b.2))

/-- A `Person` row, restricted to the fields the reminder scan and the
cascade delete read or write (the free-text attribute columns play no
role in the verified behaviour and are omitted). -/
structure Person where
  id : Int
  birth_day : Option Int
  birth_month : Option Int
  birth_year : Option Int
  notify_year_7d : Option Int
  notify_year_1d : Option Int
  avatar_path : Option String
deriving DecidableEq

/-- Outcome of one `_send_telegram` call: the `urlopen` request either
succeeded or raised, and a raised exception is caught and logged inside
the sender (src/app/main.py lines 76-80), so the caller always observes
a normal return. -/
inductive SendOutcome where
  | delivered : SendOutcome
  | failedCaught : String → SendOutcome
deriving DecidableEq

/-- `_send_telegram` (src/app/main.py lines 71-80), with the network
request's result supplied as an oracle (`Except.error e` models a
raised exception inside `urlopen`/`resp.read`).  The `try/except`
swallows the exception, so the function is total. -/
def send_telegram (net : Except String Unit) : SendOutcome :=
  match net with
  | Except.ok _ => SendOutcome.delivered
  | Except.error e => SendOutcome.failedCaught e

/-- Record of one notification send performed by the scan: which person
it was for, which threshold (7 or 1 days), and how delivery went. -/
structure Sent where
  pid : Int
  threshold : Nat
  outcome : SendOutcome
deriving DecidableEq

/-- Next occurrence of the birthday (src/app/main.py lines 120-124):
build the date in the current year with `_safe_date`; if it is strictly
before today, rebuild it in the next year.  `none` models a raised
`ValueError` escaping from `_safe_date`. -/
def nextOccurrence (today : PyDate) (m d : Int) : Option PyDate :=
  match safe_date today.year m d with
  | none => none
  | some b => if dateLt b today then safe_date (today.year + 1) m d else some b

/-- Body of the scan loop for one person with truthy birth day/month
(src/app/main.py lines 120-140): compute `days_left` and, for each of
the two thresholds, send a notification and stamp the year marker when
the marker differs from the current year.  The marker is set regardless
of the delivery outcome. -/
def processBirthday (today : PyDate) (d7 d1 : Except String Unit)
    (p : Person) : Except String (Person × List Sent) :=
  match nextOccurrence today (p.birth_month.getD 0) (p.birth_day.getD 0) with
  | none => Except.error "ValueError"
  | some bday =>
    let days_left := daysBetween bday today
    let r7 : Person × List Sent :=
      if days_left = 7 ∧ p.notify_year_7d ≠ some today.year then
        ({ p with notify_year_7d := some today.year },
          [⟨p.id, 7, send_telegram d7⟩])
      else (p, [])
    let r1 : Person × List Sent :=
      if days_left = 1 ∧ r7.1.notify_year_1d ≠ some today.year then
        ({ r7.1 with notify_year_1d := some today.year },
          r7.2 ++ [⟨p.id, 1, send_telegram d1⟩])
      else r7
    Except.ok r1

/-- One loop iteration of `_check_birthdays_and_notify` for one person
(src/app/main.py lines 116-140): skip unless both birth day and birth
month are truthy, else run the reminder computation. -/
def stepPerson (today : PyDate) (d7 d1 : Except String Unit)
    (p : Person) : Except String (Person × List Sent) :=
  if truthy p.birth_day && truthy p.birth_month then
    processBirthday today d7 d1 p
  else Except.ok (p, [])

/-- The full `for p in people` loop of one scan run.  `del pid th` is
the delivery oracle for the send to person `pid` at threshold `th`.
The first component is `Except.error` when some person's processing
raised (so `session.commit()` is never reached); the second component
collects the sends that happened before the loop finished or raised. -/
def processPeople (today : PyDate) (del : Int → Nat → Except String Unit) :
    List Person → Except String (List Person) × List Sent
  | [] => (Except.ok [], [])
  | p :: rest =>
    match stepPerson today (del p.id 7) (del p.id 1) p with
    | Except.error e => (Except.error e, [])
    | Except.ok (p1, s) =>
      match processPeople today del rest with
      | (Except.error e, srest) => (Except.error e, s ++ srest)
      | (Except.ok ps, srest) => (Except.ok (p1 :: ps), s ++ srest)

/-- One scan run of `_check_birthdays_and_notify` over the whole table:
if the loop finishes, `session.commit()` persists every updated row; if
it raises, the session is closed without commit and every in-session
marker update is rolled back, while the sends that already happened
remain sent. -/
def runScan (today : PyDate) (del : Int → Nat → Except String Unit)
    (people : List Person) : List Person × List Sent :=
  match processPeople today del people with
  | (Except.ok ps, s) => (ps, s)
  | (Except.error _, s) => (people, s)

/-- A sequence of scan runs (the 12-hourly watcher invocations), each
with its own current date and delivery oracle, threading the persisted
table state and accumulating all sends. -/
def runScans :
    List (PyDate × (Int → Nat → Except String Unit)) → List Person →
      List Person × List Sent
  | [], ps => (ps, [])
  | r :: rest, ps =>
    let out := runScan r.1 r.2 ps
    let out2 := runScans rest out.1
    (out2.1, out.2 ++ out2.2)

/-- Number of recorded sends for person `x` at threshold `th`. -/
def countSent (th : Nat) (x : Int) (l : List Sent) : Nat :=
  (l.filter (fun s => s.threshold == th && s.pid == x)).length

/-- The committed effect of one scan iteration on one person: the
updated row when processing succeeded, the unchanged row otherwise. -/
def stepRun (today : PyDate) (del : Int → Nat → Except String Unit)
    (p : Person) : Person × List Sent :=
  match stepPerson today (del p.id 7) (del p.id 1) p with
  | Except.ok r => r
  | Except.error _ => (p, [])

/-- A person whose stored birth month cannot make `_safe_date` raise:
whenever the scan processes them, the month is a real month number. -/
def scanSafe (p : Person) : Prop :=
  truthy p.birth_day = true → truthy p.birth_month = true →
    1 ≤ p.birth_month.getD 0 ∧ p.birth_month.getD 0 ≤ 12

instance (p : Person) : Decidable (scanSafe p) := by
  unfold scanSafe; exact inferInstance

/-- `calc_age` (src/app/utils.py lines 8-17), with `today` passed
explicitly.  `none` models Python `None` ("unknown"); the truthiness
guard and the `ValueError` catch both map to `none`. -/
def calc_age (today : PyDate) (d m y : Option Int) : Option Int :=
  if truthy d && truthy m && truthy y then
    if isValidDate (y.getD 0) (m.getD 0) (d.getD 0) then
      some (today.year - y.getD 0 -
        (if pairLt (today.month, today.day) (m.getD 0, d.getD 0) then 1 else 0))
    else none
  else none

/-- A `Pet` row, restricted to the fields `person_delete` reads. -/
structure PetRow where
  id : Int
  person_id : Int
  photo_path : Option String
deriving DecidableEq

/-- A `Child` row, restricted to the fields `person_delete` reads. -/
structure ChildRow where
  id : Int
  person_id : Int
deriving DecidableEq

/-- A `Note` row, restricted to the fields `person_delete` reads. -/
structure NoteRow where
  id : Int
  person_id : Int
deriving DecidableEq

/-- The persistent state touched by the delete flow: the four tables
plus the uploads directory, modelled as the list of stored file names
(the part after the `/uploads/` URL prefix). -/
structure DB where
  people : List Person
  pets : List PetRow
  children : List ChildRow
  notes : List NoteRow
  files : List String
deriving DecidableEq

/-- The stored file name referenced by an avatar/photo path: paths are
served as `/uploads/<name>`, anything else is not an upload.  The
prefix test and suffix extraction are modelled on character lists. -/
def uploadName (path : String) : Option String :=
  if "/uploads/".data.isPrefixOf path.data then
    some (String.mk (path.data.drop 9))
  else none

/-- `_safe_remove_file` (src/app/main.py lines 57-66): delete the file
a path refers to, but only for paths starting with `/uploads/`,
treating a missing file or a failing unlink as a no-op. -/
def safe_remove_file (files : List String) : Option String → List String
  | none => files
  | some path =>
    if "/uploads/".data.isPrefixOf path.data then
      files.erase (String.mk (path.data.drop 9))
    else files

/-- The pet-photo cleanup loop of `person_delete`. -/
def removePhotos (files : List String) (pets : List PetRow) : List String :=
  pets.foldl (fun fs q => safe_remove_file fs q.photo_path) files

/-- `person_delete` (src/app/main.py lines 350-373): look the person
up; when present, delete every pet (with its photo file), child and
note row owned by the person, remove the avatar file, delete the person
row and commit. -/
def person_delete (db : DB) (pid : Int) : DB :=
  match db.people.find? (fun q => q.id == pid) with
  | none => db
  | some p =>
    let petsOf := db.pets.filter (fun q => q.person_id == pid)
    let files1 := removePhotos db.files petsOf
    let files2 := safe_remove_file files1 p.avatar_path
    { people := db.people.filter (fun q => !(q.id == pid)),
      pets := db.pets.filter (fun q => !(q.person_id == pid)),
      children := db.children.filter (fun q => !(q.person_id == pid)),
      notes := db.notes.filter (fun q => !(q.person_id == pid)),
      files := files2 }

/-- The lookup performed by `person_detail` (src/app/main.py lines
551-555): `none` models the 404 "Person not found" response. -/
def person_detail (db : DB) (pid : Int) : Option Person :=
  db.people.find? (fun q => q.id == pid)

/-- The per-run sends of one scan, person by person, in loop order
(what `processPeople` emits when no iteration raises). -/
def scanSends (t : PyDate) (del : Int → Nat → Except String Unit) :
    List Person → List Sent
  | [] => []
  | p :: rest => (stepRun t del p).2 ++ scanSends t del rest

lemma countSent_append (th : Nat) (x : Int) (l1 l2 : List Sent) :
    countSent th x (l1 ++ l2) = countSent th x l1 + countSent th x l2 := by
  simp [countSent, List.filter_append]

lemma countSent_zero (th : Nat) (x : Int) :
    ∀ l : List Sent, (∀ s ∈ l, s.pid ≠ x) → countSent th x l = 0
  | [], _ => rfl
  | a :: l, h => by
    have ha : (a.threshold == th && a.pid == x) = false := by
      have hne := h a (List.mem_cons_self a l)
      simp [hne]
    have hrest := countSent_zero th x l (fun s hs => h s (List.mem_cons_of_mem _ hs))
    simp only [countSent, List.filter_cons, ha] at *
    simpa using hrest

/-- Full case analysis of one loop iteration: it either raises
`ValueError`, or returns an updated row and a list of sends such that
for each threshold either nothing was sent and the marker is unchanged,
or exactly one notification was sent, the previous marker differed from
the current year, and the marker now equals the current year.  All
other fields are untouched and every send is tagged with the person's
id. -/
lemma stepPerson_master (t : PyDate) (d7 d1 : Except String Unit) (p : Person) :
    stepPerson t d7 d1 p = Except.error "ValueError" ∨
    ∃ p1 s, stepPerson t d7 d1 p = Except.ok (p1, s) ∧
      p1.id = p.id ∧ p1.birth_day = p.birth_day ∧ p1.birth_month = p.birth_month ∧
      p1.birth_year = p.birth_year ∧ p1.avatar_path = p.avatar_path ∧
      (∀ x ∈ s, x.pid = p.id) ∧
      ((countSent 7 p.id s = 0 ∧ p1.notify_year_7d = p.notify_year_7d) ∨
        (countSent 7 p.id s = 1 ∧ p1.notify_year_7d = some t.year ∧
          p.notify_year_7d ≠ some t.year)) ∧
      ((countSent 1 p.id s = 0 ∧ p1.notify_year_1d = p.notify_year_1d) ∨
        (countSent 1 p.id s = 1 ∧ p1.notify_year_1d = some t.year ∧
          p.notify_year_1d ≠ some t.year)) := by
  by_cases htr : (truthy p.birth_day && truthy p.birth_month) = true
  case neg =>
    right
    refine ⟨p, [], ?_, rfl, rfl, rfl, rfl, rfl, ?_, ?_, ?_⟩
    · unfold stepPerson; rw [if_neg htr]
    · intro x hx; cases hx
    · exact Or.inl ⟨rfl, rfl⟩
    · exact Or.inl ⟨rfl, rfl⟩
  case pos =>
    have hstep : stepPerson t d7 d1 p = processBirthday t d7 d1 p := by
      unfold stepPerson; rw [if_pos htr]
    rw [hstep]
    cases hno : nextOccurrence t (p.birth_month.getD 0) (p.birth_day.getD 0) with
    | none =>
      left
      unfold processBirthday
      rw [hno]
    | some bday =>
      right
      by_cases h7 : daysBetween bday t = 7 ∧ p.notify_year_7d ≠ some t.year
      · have hval : processBirthday t d7 d1 p =
            Except.ok ({ p with notify_year_7d := some t.year },
              [⟨p.id, 7, send_telegram d7⟩]) := by
          unfold processBirthday
          rw [hno]
          simp [h7.1, h7.2]
        refine ⟨_, _, hval, rfl, rfl, rfl, rfl, rfl, ?_, ?_, ?_⟩
        · intro x hx
          simp at hx
          rw [hx]
        · right
          refine ⟨?_, rfl, h7.2⟩
          simp [countSent]
        · left
          refine ⟨?_, rfl⟩
          simp [countSent]
      · by_cases h1 : daysBetween bday t = 1 ∧ p.notify_year_1d ≠ some t.year
        · have hval : processBirthday t d7 d1 p =
              Except.ok ({ p with notify_year_1d := some t.year },
                [⟨p.id, 1, send_telegram d1⟩]) := by
            unfold processBirthday
            rw [hno]
            simp [h1.1, h1.2]
          refine ⟨_, _, hval, rfl, rfl, rfl, rfl, rfl, ?_, ?_, ?_⟩
          · intro x hx
            simp at hx
            rw [hx]
          · left
            refine ⟨?_, rfl⟩
            simp [countSent]
          · right
            refine ⟨?_, rfl, h1.2⟩
            simp [countSent]
        · have hval : processBirthday t d7 d1 p = Except.ok (p, []) := by
            unfold processBirthday
            rw [hno]
            simp [h7, h1]
          refine ⟨_, _, hval, rfl, rfl, rfl, rfl, rfl, ?_, ?_, ?_⟩
          · intro x hx; cases hx
          · exact Or.inl ⟨rfl, rfl⟩
          · exact Or.inl ⟨rfl, rfl⟩

/-- `stepPerson_master` transferred to the committed per-person effect
`stepRun`; the raising case commits nothing, so the disjunctions hold
unconditionally. -/
lemma stepRun_spec (t : PyDate) (del : Int → Nat → Except String Unit)
    (p : Person) :
    (stepRun t del p).1.id = p.id ∧
    (stepRun t del p).1.birth_day = p.birth_day ∧
    (stepRun t del p).1.birth_month = p.birth_month ∧
    (∀ x ∈ (stepRun t del p).2, x.pid = p.id) ∧
    ((countSent 7 p.id (stepRun t del p).2 = 0 ∧
        (stepRun t del p).1.notify_year_7d = p.notify_year_7d) ∨
      (countSent 7 p.id (stepRun t del p).2 = 1 ∧
        (stepRun t del p).1.notify_year_7d = some t.year ∧
        p.notify_year_7d ≠ some t.year)) ∧
    ((countSent 1 p.id (stepRun t del p).2 = 0 ∧
        (stepRun t del p).1.notify_year_1d = p.notify_year_1d) ∨
      (countSent 1 p.id (stepRun t del p).2 = 1 ∧
        (stepRun t del p).1.notify_year_1d = some t.year ∧
        p.notify_year_1d ≠ some t.year)) := by
  rcases stepPerson_master t (del p.id 7) (del p.id 1) p with herr |
    ⟨p1, s, hok, hid, hbd, hbm, _, _, hpid, h7, h1⟩
  · unfold stepRun
    rw [herr]
    exact ⟨rfl, rfl, rfl, fun x hx => absurd hx (by simp),
      Or.inl ⟨rfl, rfl⟩, Or.inl ⟨rfl, rfl⟩⟩
  · unfold stepRun
    rw [hok]
    exact ⟨hid, hbd, hbm, hpid, h7, h1⟩

lemma nextOccurrence_some (t : PyDate) (m d : Int)
    (h1 : 1 ≤ t.year) (h2 : t.year ≤ 9998) (hm1 : 1 ≤ m) (hm2 : m ≤ 12) :
    ∃ b, nextOccurrence t m d = some b := by
  have hok : monthYearOk t.year m := ⟨h1, by omega, hm1, hm2⟩
  have hok2 : monthYearOk (t.year + 1) m := ⟨by omega, by omega, hm1, hm2⟩
  have hne : nextOccurrence t m d =
      if dateLt ⟨t.year, m, max 1 (min d (daysInMonth t.year m))⟩ t
      then safe_date (t.year + 1) m d
      else some ⟨t.year, m, max 1 (min d (daysInMonth t.year m))⟩ := by
    unfold nextOccurrence
    rw [safe_date_ok _ _ _ hok]
  rw [hne]
  by_cases hlt :
      dateLt ⟨t.year, m, max 1 (min d (daysInMonth t.year m))⟩ t = true
  · rw [if_pos hlt, safe_date_ok _ _ _ hok2]
    exact ⟨_, rfl⟩
  · rw [if_neg hlt]
    exact ⟨_, rfl⟩

/-- For a person whose stored month is a real month and a current date
with an in-range year, the loop body cannot raise. -/
lemma stepPerson_ok (t : PyDate) (d7 d1 : Except String Unit) (p : Person)
    (h1 : 1 ≤ t.year) (h2 : t.year ≤ 9998) (hs : scanSafe p) :
    ∃ r, stepPerson t d7 d1 p = Except.ok r := by
  unfold stepPerson
  by_cases htr : (truthy p.birth_day && truthy p.birth_month) = true
  · rw [if_pos htr]
    rw [Bool.and_eq_true] at htr
    obtain ⟨hm1, hm2⟩ := hs htr.1 htr.2
    obtain ⟨b, hb⟩ :=
      nextOccurrence_some t (p.birth_month.getD 0) (p.birth_day.getD 0) h1 h2 hm1 hm2
    unfold processBirthday
    rw [hb]
    exact ⟨_, rfl⟩
  · rw [if_neg htr]
    exact ⟨_, rfl⟩

/-- When no loop iteration raises, the run returns the row-by-row
updates and the concatenated sends. -/
lemma processPeople_eq (t : PyDate) (del : Int → Nat → Except String Unit) :
    ∀ ps : List Person,
      (∀ p ∈ ps, ∃ r, stepPerson t (del p.id 7) (del p.id 1) p = Except.ok r) →
      processPeople t del ps =
        (Except.ok (ps.map (fun p => (stepRun t del p).1)), scanSends t del ps)
  | [], _ => by simp [processPeople, scanSends]
  | p :: rest, h => by
    obtain ⟨r, hr⟩ := h p (List.mem_cons_self p rest)
    obtain ⟨p1, s⟩ := r
    have ih := processPeople_eq t del rest (fun q hq => h q (List.mem_cons_of_mem _ hq))
    have hrun : stepRun t del p = (p1, s) := by
      unfold stepRun; rw [hr]
    unfold processPeople
    rw [hr, ih]
    simp [scanSends, hrun]

/-- When some iteration raises, the run's first component is an error
(`session.commit()` is never reached). -/
lemma processPeople_error (t : PyDate) (del : Int → Nat → Except String Unit) :
    ∀ ps : List Person,
      ¬ (∀ p ∈ ps, ∃ r, stepPerson t (del p.id 7) (del p.id 1) p = Except.ok r) →
      ∃ e, (processPeople t del ps).1 = Except.error e
  | [], h => absurd (by intro p hp; cases hp) h
  | p :: rest, h => by
    unfold processPeople
    cases hr : stepPerson t (del p.id 7) (del p.id 1) p with
    | error e => exact ⟨e, rfl⟩
    | ok r =>
      obtain ⟨p1, s⟩ := r
      have hrest : ¬ (∀ q ∈ rest, ∃ r2,
          stepPerson t (del q.id 7) (del q.id 1) q = Except.ok r2) := by
        intro hall
        apply h
        intro q hq
        rcases List.mem_cons.mp hq with rfl | hq2
        · exact ⟨(p1, s), hr⟩
        · exact hall q hq2
      obtain ⟨e, he⟩ := processPeople_error t del rest hrest
      rcases hpp : processPeople t del rest with ⟨r2, srest⟩
      rw [hpp] at he
      simp only at he
      rw [he]
      exact ⟨e, rfl⟩

lemma runScan_eq (t : PyDate) (del : Int → Nat → Except String Unit)
    (ps : List Person)
    (h : ∀ p ∈ ps, ∃ r, stepPerson t (del p.id 7) (del p.id 1) p = Except.ok r) :
    runScan t del ps =
      (ps.map (fun p => (stepRun t del p).1), scanSends t del ps) := by
  unfold runScan
  rw [processPeople_eq t del ps h]

lemma runScan_rollback (t : PyDate) (del : Int → Nat → Except String Unit)
    (ps : List Person)
    (h : ¬ ∀ p ∈ ps, ∃ r, stepPerson t (del p.id 7) (del p.id 1) p = Except.ok r) :
    (runScan t del ps).1 = ps := by
  obtain ⟨e, he⟩ := processPeople_error t del ps h
  unfold runScan
  rcases hpp : processPeople t del ps with ⟨r, s⟩
  rw [hpp] at he
  simp only at he
  rw [he]

lemma countSent_scanSends_zero (t : PyDate)
    (del : Int → Nat → Except String Unit) :
    ∀ (ps : List Person) (x : Int) (th : Nat), (∀ q ∈ ps, q.id ≠ x) →
      countSent th x (scanSends t del ps) = 0
  | [], _, _, _ => rfl
  | q :: rest, x, th, h => by
    rw [scanSends, countSent_append]
    have h1 : countSent th x (stepRun t del q).2 = 0 := by
      apply countSent_zero
      intro s hs
      rw [(stepRun_spec t del q).2.2.2.1 s hs]
      exact h q (List.mem_cons_self q rest)
    rw [h1,
      countSent_scanSends_zero t del rest x th
        (fun r hr => h r (List.mem_cons_of_mem _ hr))]

/-- With distinct person ids, the sends of one run that carry `p0`'s id
are exactly the sends of `p0`'s own loop iteration. -/
lemma countSent_scanSends (t : PyDate) (del : Int → Nat → Except String Unit) :
    ∀ (ps : List Person) (p0 : Person) (th : Nat), p0 ∈ ps →
      (ps.map Person.id).Nodup →
      countSent th p0.id (scanSends t del ps) =
        countSent th p0.id (stepRun t del p0).2
  | [], p0, th, hmem, _ => absurd hmem (by simp)
  | q :: rest, p0, th, hmem, hnd => by
    rw [scanSends, countSent_append]
    rw [List.map_cons, List.nodup_cons] at hnd
    rcases List.mem_cons.mp hmem with rfl | hmem2
    · have hz : countSent th p0.id (scanSends t del rest) = 0 := by
        apply countSent_scanSends_zero
        intro r hr hre
        exact hnd.1 (hre ▸ List.mem_map_of_mem Person.id hr)
      rw [hz]
      omega
    · have hqid : q.id ≠ p0.id :=
        fun he => hnd.1 (he ▸ List.mem_map_of_mem Person.id hmem2)
      have hz : countSent th p0.id (stepRun t del q).2 = 0 := by
        apply countSent_zero
        intro s hs
        rw [(stepRun_spec t del q).2.2.2.1 s hs]
        exact hqid
      rw [hz, countSent_scanSends t del rest p0 th hmem2 hnd.2]
      omega

/-- Marker-based deduplication across a sequence of completed scan runs
in one calendar year, for a given threshold `th` and marker field `g`:
the runs send at most one `th`-notification for a person, and none at
all when the person's marker already equals the year. -/
lemma runScans_marker (th : Nat) (g : Person → Option Int)
    (hg : ∀ (t : PyDate) (del : Int → Nat → Except String Unit) (p : Person),
      (countSent th p.id (stepRun t del p).2 = 0 ∧
        g (stepRun t del p).1 = g p) ∨
      (countSent th p.id (stepRun t del p).2 = 1 ∧
        g (stepRun t del p).1 = some t.year ∧ g p ≠ some t.year))
    (Y : Int) (hY1 : 1 ≤ Y) (hY2 : Y ≤ 9998) :
    ∀ (runs : List (PyDate × (Int → Nat → Except String Unit)))
      (people : List Person) (p0 : Person),
      p0 ∈ people → (people.map Person.id).Nodup →
      (∀ q ∈ people, scanSafe q) → (∀ r ∈ runs, r.1.year = Y) →
      countSent th p0.id (runScans runs people).2 ≤
        (if g p0 = some Y then 0 else 1)
  | [], people, p0, _, _, _, _ => by
    have : countSent th p0.id (runScans [] people).2 = 0 := rfl
    rw [this]
    split <;> omega
  | r :: rest, people, p0, hmem, hnd, hsafe, hyears => by
    obtain ⟨t, del⟩ := r
    have hty : t.year = Y := hyears (t, del) (List.mem_cons_self _ _)
    have hall : ∀ p ∈ people, ∃ rr,
        stepPerson t (del p.id 7) (del p.id 1) p = Except.ok rr :=
      fun p hp => stepPerson_ok t _ _ p (by omega) (by omega) (hsafe p hp)
    have hrs := runScan_eq t del people hall
    have hsplit : (runScans ((t, del) :: rest) people).2 =
        (runScan t del people).2 ++
          (runScans rest (runScan t del people).1).2 := rfl
    rw [hsplit, countSent_append, hrs]
    simp only
    have hc1 := countSent_scanSends t del people p0 th hmem hnd
    rw [hc1]
    set p1 : Person := (stepRun t del p0).1 with hp1
    have hmem2 : p1 ∈ people.map (fun p => (stepRun t del p).1) :=
      List.mem_map_of_mem _ hmem
    have hnd2 : ((people.map (fun p => (stepRun t del p).1)).map Person.id).Nodup := by
      rw [List.map_map]
      have : people.map (Person.id ∘ fun p => (stepRun t del p).1) =
          people.map Person.id :=
        List.map_congr_left (fun q _ => (stepRun_spec t del q).1)
      rw [this]
      exact hnd
    have hsafe2 : ∀ q ∈ people.map (fun p => (stepRun t del p).1), scanSafe q := by
      intro q hq
      obtain ⟨q0, hq0, rfl⟩ := List.mem_map.mp hq
      have hspec := stepRun_spec t del q0
      unfold scanSafe
      rw [hspec.2.1, hspec.2.2.1]
      exact hsafe q0 hq0
    have ih := runScans_marker th g hg Y hY1 hY2 rest
      (people.map (fun p => (stepRun t del p).1)) p1 hmem2 hnd2 hsafe2
      (fun rr hrr => hyears rr (List.mem_cons_of_mem _ hrr))
    have hid : p1.id = p0.id := (stepRun_spec t del p0).1
    rw [hid] at ih
    rcases hg t del p0 with ⟨hc0, hgsame⟩ | ⟨hcone, hgY, hgne⟩
    · rw [← hp1] at hgsame
      rw [hgsame] at ih
      rw [hc0]
      omega
    · rw [← hp1] at hgY
      rw [hgY, hty] at ih
      rw [if_pos rfl] at ih
      rw [hty] at hgne
      rw [if_neg hgne, hcone]
      omega

/-- A concrete scan date, 2023-03-08 (2023 is not a leap year). -/
def T0 : PyDate := ⟨2023, 3, 8⟩

/-- A delivery oracle under which every network request succeeds. -/
def delOk : Int → Nat → Except String Unit := fun _ _ => Except.ok ()

/-- Person 1: birthday March 15, no markers set; seven days ahead of `T0`. -/
def alice : Person := ⟨1, some 15, some 3, none, none, none, none⟩

/-- Person 2: stored birth month 13 — the CRUD handlers accept any
integer for `birth_month`, so such a row can exist. -/
def bob13 : Person := ⟨2, some 5, some 13, none, none, none, none⟩

/-- Claim C1 counterexample: with person 1 (birthday in 7 days) and
person 2 (stored month 13) in the table, two scans on the same day send
the 7-day notification for person 1 twice.  Person 2's row makes
`_safe_date` raise after person 1's send, the run never reaches
`session.commit()`, so person 1's marker update is rolled back and the
next run sends again. -/
theorem scan_dedup_counterexample :
    countSent 7 1 (runScans [(T0, delOk), (T0, delOk)] [alice, bob13]).2 = 2 := by
  rfl

/-- Claim C1 (amended): provided every scan run completes — i.e. every
stored person with truthy birth day and month has a birth month in
1..12, so no loop iteration raises and every run commits — the
year-stamped markers guarantee at most one 7-day and at most one 1-day
notification per person per calendar year, and a marker already equal
to the current year suppresses that threshold's sends entirely. -/
theorem scan_dedup_per_year
    (runs : List (PyDate × (Int → Nat → Except String Unit)))
    (people : List Person) (p0 : Person) (Y : Int)
    (hmem : p0 ∈ people) (hids : (people.map Person.id).Nodup)
    (hsafe : ∀ q ∈ people, scanSafe q)
    (hyears : ∀ r ∈ runs, r.1.year = Y)
    (hY1 : 1 ≤ Y) (hY2 : Y ≤ 9998) :
    countSent 7 p0.id (runScans runs people).2 ≤ 1 ∧
    countSent 1 p0.id (runScans runs people).2 ≤ 1 ∧
    (p0.notify_year_7d = some Y →
      countSent 7 p0.id (runScans runs people).2 = 0) ∧
    (p0.notify_year_1d = some Y →
      countSent 1 p0.id (runScans runs people).2 = 0) := by
  have h7 := runScans_marker 7 Person.notify_year_7d
    (fun t del p => (stepRun_spec t del p).2.2.2.2.1) Y hY1 hY2
    runs people p0 hmem hids hsafe hyears
  have h1 := runScans_marker 1 Person.notify_year_1d
    (fun t del p => (stepRun_spec t del p).2.2.2.2.2) Y hY1 hY2
    runs people p0 hmem hids hsafe hyears
  refine ⟨?_, ?_, ?_, ?_⟩
  · by_cases hm : p0.notify_year_7d = some Y
    · rw [if_pos hm] at h7; omega
    · rw [if_neg hm] at h7; omega
  · by_cases hm : p0.notify_year_1d = some Y
    · rw [if_pos hm] at h1; omega
    · rw [if_neg hm] at h1; omega
  · intro hm; rw [if_pos hm] at h7; omega
  · intro hm; rw [if_pos hm] at h1; omega

/-- Witness for `scan_dedup_per_year`: the single well-formed person
over two same-day runs, with every hypothesis discharged concretely. -/
theorem scan_dedup_per_year_witness :
    countSent 7 1 (runScans [(T0, delOk), (T0, delOk)] [alice]).2 ≤ 1 := by
  have h := scan_dedup_per_year [(T0, delOk), (T0, delOk)] [alice] alice 2023
    (List.mem_singleton.mpr rfl)
    (by decide)
    (by intro q hq; rw [List.mem_singleton] at hq; subst hq; decide)
    (by
      intro r hr
      rcases List.mem_cons.mp hr with rfl | hr2
      · rfl
      · rcases List.mem_cons.mp hr2 with rfl | hr3
        · rfl
        · cases hr3)
    (by decide) (by decide)
  exact h.1

/-- Claim C8: the run performs one commit after the full loop, so
either every per-row update of the run persists (when no iteration
raises) or the table is left exactly as it was (when some iteration
raises and the commit is never reached). -/
theorem scan_commit_atomic (t : PyDate) (del : Int → Nat → Except String Unit)
    (people : List Person) :
    ((∀ p ∈ people, ∃ r, stepPerson t (del p.id 7) (del p.id 1) p = Except.ok r) →
      (runScan t del people).1 = people.map (fun p => (stepRun t del p).1)) ∧
    ((¬ ∀ p ∈ people, ∃ r, stepPerson t (del p.id 7) (del p.id 1) p = Except.ok r) →
      (runScan t del people).1 = people) := by
  constructor
  · intro h
    rw [runScan_eq t del people h]
  · intro h
    exact runScan_rollback t del people h

/-- Witness for `scan_commit_atomic`: a run over person 1 (whose marker
would be updated) and person 2 (whose row raises) persists nothing. -/
theorem scan_commit_atomic_witness :
    (runScan T0 delOk [alice, bob13]).1 = [alice, bob13] := by
  apply (scan_commit_atomic T0 delOk [alice, bob13]).2
  intro hall
  obtain ⟨r, hr⟩ := hall bob13 (by simp)
  have hbad : stepPerson T0 (delOk bob13.id 7) (delOk bob13.id 1) bob13 =
      Except.error "ValueError" := by rfl
  rw [hbad] at hr
  cases hr

/-- The value of the loop body when the 7-day branch fires. -/
lemma processBirthday_val7 (t : PyDate) (d7 d1 : Except String Unit)
    (p : Person) (bday : PyDate)
    (hno : nextOccurrence t (p.birth_month.getD 0) (p.birth_day.getD 0) = some bday)
    (h7a : daysBetween bday t = 7) (h7b : p.notify_year_7d ≠ some t.year) :
    processBirthday t d7 d1 p =
      Except.ok ({ p with notify_year_7d := some t.year },
        [⟨p.id, 7, send_telegram d7⟩]) := by
  unfold processBirthday
  rw [hno]
  simp [h7a, h7b]

/-- The value of the loop body when the 1-day branch fires. -/
lemma processBirthday_val1 (t : PyDate) (d7 d1 : Except String Unit)
    (p : Person) (bday : PyDate)
    (hno : nextOccurrence t (p.birth_month.getD 0) (p.birth_day.getD 0) = some bday)
    (h1a : daysBetween bday t = 1) (h1b : p.notify_year_1d ≠ some t.year) :
    processBirthday t d7 d1 p =
      Except.ok ({ p with notify_year_1d := some t.year },
        [⟨p.id, 1, send_telegram d1⟩]) := by
  unfold processBirthday
  rw [hno]
  simp [h1a, h1b]

/-- The value of the loop body when neither branch fires. -/
lemma processBirthday_val0 (t : PyDate) (d7 d1 : Except String Unit)
    (p : Person) (bday : PyDate)
    (hno : nextOccurrence t (p.birth_month.getD 0) (p.birth_day.getD 0) = some bday)
    (h7 : ¬ (daysBetween bday t = 7 ∧ p.notify_year_7d ≠ some t.year))
    (h1 : ¬ (daysBetween bday t = 1 ∧ p.notify_year_1d ≠ some t.year)) :
    processBirthday t d7 d1 p = Except.ok (p, []) := by
  unfold processBirthday
  rw [hno]
  simp [h7, h1]

/-- The committed row produced by one loop iteration does not depend on
the delivery outcomes (only the recorded send outcomes do). -/
lemma stepPerson_fst_congr (t : PyDate) (d7 d1 d7' d1' : Except String Unit)
    (p : Person) :
    Except.map Prod.fst (stepPerson t d7 d1 p) =
      Except.map Prod.fst (stepPerson t d7' d1' p) := by
  unfold stepPerson
  by_cases htr : (truthy p.birth_day && truthy p.birth_month) = true
  · rw [if_pos htr, if_pos htr]
    cases hno : nextOccurrence t (p.birth_month.getD 0) (p.birth_day.getD 0) with
    | none =>
      have e1 : processBirthday t d7 d1 p = Except.error "ValueError" := by
        unfold processBirthday; rw [hno]
      have e2 : processBirthday t d7' d1' p = Except.error "ValueError" := by
        unfold processBirthday; rw [hno]
      rw [e1, e2]
    | some bday =>
      by_cases h7 : daysBetween bday t = 7 ∧ p.notify_year_7d ≠ some t.year
      · rw [processBirthday_val7 t d7 d1 p bday hno h7.1 h7.2,
          processBirthday_val7 t d7' d1' p bday hno h7.1 h7.2]
        rfl
      · by_cases h1 : daysBetween bday t = 1 ∧ p.notify_year_1d ≠ some t.year
        · rw [processBirthday_val1 t d7 d1 p bday hno h1.1 h1.2,
            processBirthday_val1 t d7' d1' p bday hno h1.1 h1.2]
          rfl
        · rw [processBirthday_val0 t d7 d1 p bday hno h7 h1,
            processBirthday_val0 t d7' d1' p bday hno h7 h1]
  · rw [if_neg htr, if_neg htr]

/-- The committed table of one run is independent of delivery. -/
lemma processPeople_fst_congr (t : PyDate)
    (del del' : Int → Nat → Except String Unit) :
    ∀ ps : List Person,
      (processPeople t del ps).1 = (processPeople t del' ps).1
  | [] => rfl
  | p :: rest => by
    have hstep := stepPerson_fst_congr t (del p.id 7) (del p.id 1)
      (del' p.id 7) (del' p.id 1) p
    have ih := processPeople_fst_congr t del del' rest
    unfold processPeople
    cases h1 : stepPerson t (del p.id 7) (del p.id 1) p with
    | error e =>
      cases h2 : stepPerson t (del' p.id 7) (del' p.id 1) p with
      | error e2 =>
        rw [h1, h2] at hstep
        simp only [Except.map] at hstep
        cases hstep
        rfl
      | ok r2 =>
        rw [h1, h2] at hstep
        simp only [Except.map] at hstep
        cases hstep
    | ok r1 =>
      cases h2 : stepPerson t (del' p.id 7) (del' p.id 1) p with
      | error e2 =>
        rw [h1, h2] at hstep
        simp only [Except.map] at hstep
        cases hstep
      | ok r2 =>
        rw [h1, h2] at hstep
        obtain ⟨q1, s1⟩ := r1
        obtain ⟨q2, s2⟩ := r2
        simp only [Except.map, Except.ok.injEq] at hstep
        subst hstep
        rcases hr : processPeople t del rest with ⟨a, sa⟩
        rcases hr2 : processPeople t del' rest with ⟨b, sb⟩
        rw [hr, hr2] at ih
        simp only at ih
        subst ih
        cases a with
        | error e => rfl
        | ok ps2 => rfl

lemma runScan_people_congr (t : PyDate)
    (del del' : Int → Nat → Except String Unit) (ps : List Person) :
    (runScan t del ps).1 = (runScan t del' ps).1 := by
  have h := processPeople_fst_congr t del del' ps
  unfold runScan
  rcases h1 : processPeople t del ps with ⟨a, sa⟩
  rcases h2 : processPeople t del' ps with ⟨b, sb⟩
  rw [h1, h2] at h
  simp only at h
  subst h
  cases a with
  | error e => rfl
  | ok x => rfl

/-- Claim C5: a failed network request is caught and logged inside
`_send_telegram` and never propagates; a person passing a threshold
check with a stale marker gets the marker stamped with the current year
regardless of the delivery outcome; and the committed table of a whole
run does not depend on any delivery outcome, so one person's failed
send blocks no other person's marker update. -/
theorem delivery_failure_isolated :
    (∀ e, send_telegram (Except.error e) = SendOutcome.failedCaught e) ∧
    (∀ (t : PyDate) (del del' : Int → Nat → Except String Unit)
        (people : List Person),
      (runScan t del people).1 = (runScan t del' people).1) ∧
    (∀ (t : PyDate) (d7 d1 : Except String Unit) (p : Person) (bday : PyDate),
      nextOccurrence t (p.birth_month.getD 0) (p.birth_day.getD 0) = some bday →
      (truthy p.birth_day && truthy p.birth_month) = true →
      daysBetween bday t = 7 → p.notify_year_7d ≠ some t.year →
      stepPerson t d7 d1 p =
        Except.ok ({ p with notify_year_7d := some t.year },
          [⟨p.id, 7, send_telegram d7⟩])) ∧
    (∀ (t : PyDate) (d7 d1 : Except String Unit) (p : Person) (bday : PyDate),
      nextOccurrence t (p.birth_month.getD 0) (p.birth_day.getD 0) = some bday →
      (truthy p.birth_day && truthy p.birth_month) = true →
      daysBetween bday t = 1 → p.notify_year_1d ≠ some t.year →
      stepPerson t d7 d1 p =
        Except.ok ({ p with notify_year_1d := some t.year },
          [⟨p.id, 1, send_telegram d1⟩])) := by
  refine ⟨fun e => rfl, fun t del del' people => runScan_people_congr t del del' people,
    ?_, ?_⟩
  · intro t d7 d1 p bday hno htr h7a h7b
    unfold stepPerson
    rw [if_pos htr]
    exact processBirthday_val7 t d7 d1 p bday hno h7a h7b
  · intro t d7 d1 p bday hno htr h1a h1b
    unfold stepPerson
    rw [if_pos htr]
    exact processBirthday_val1 t d7 d1 p bday hno h1a h1b

/-- Witness for `delivery_failure_isolated`: a failing network request
for person 1's 7-day send is swallowed and the marker is stamped. -/
theorem delivery_failure_isolated_witness :
    stepPerson T0 (Except.error "connection reset") (Except.ok ()) alice =
      Except.ok ({ alice with notify_year_7d := some 2023 },
        [⟨1, 7, SendOutcome.failedCaught "connection reset"⟩]) := by
  have h := delivery_failure_isolated.2.2.1 T0 (Except.error "connection reset")
    (Except.ok ()) alice ⟨2023, 3, 15⟩ (by rfl) (by decide) (by decide) (by decide)
  exact h

/-- Claim C6 counterexample: a person with a birth day but no birth
month does not lack both fields, yet the scan skips them (row returned
unchanged, no sends) instead of handing them to the reminder
computation, which would raise on the absent month. -/
theorem skip_counterexample :
    (⟨10, some 5, none, none, none, none, none⟩ : Person).birth_day = some 5 ∧
    stepPerson T0 (Except.ok ()) (Except.ok ())
      ⟨10, some 5, none, none, none, none, none⟩ =
      Except.ok (⟨10, some 5, none, none, none, none, none⟩, []) ∧
    processBirthday T0 (Except.ok ()) (Except.ok ())
      ⟨10, some 5, none, none, none, none, none⟩ =
      Except.error "ValueError" := by
  exact ⟨rfl, rfl, rfl⟩

/-- Claim C6 (amended): the scan skips a person exactly when the birth
day or the birth month is absent or zero (Python truthiness); every
person with both fields truthy is handed to the reminder computation. -/
theorem skip_iff_missing_component (t : PyDate) (d7 d1 : Except String Unit)
    (p : Person) :
    (¬ (truthy p.birth_day = true ∧ truthy p.birth_month = true) →
      stepPerson t d7 d1 p = Except.ok (p, [])) ∧
    ((truthy p.birth_day = true ∧ truthy p.birth_month = true) →
      stepPerson t d7 d1 p = processBirthday t d7 d1 p) := by
  constructor
  · intro h
    unfold stepPerson
    rw [if_neg (by rw [Bool.and_eq_true]; exact h)]
  · intro h
    unfold stepPerson
    rw [if_pos (by rw [Bool.and_eq_true]; exact h)]

/-- Witness for `skip_iff_missing_component`: a person with an absent
birth day and present month is skipped unchanged. -/
theorem skip_iff_missing_component_witness :
    stepPerson T0 (Except.ok ()) (Except.ok ())
      ⟨11, none, some 4, none, none, none, none⟩ =
      Except.ok (⟨11, none, some 4, none, none, none, none⟩, []) :=
  (skip_iff_missing_component T0 (Except.ok ()) (Except.ok ())
    ⟨11, none, some 4, none, none, none, none⟩).1 (by decide)

/-- Claim C2 counterexample: with today = 2023-02-28 (2023 is not a
leap year) a stored birthday of Feb 29 is corrected to Feb 28, so the
next occurrence equals today although the stored (month, day) = (2, 29)
differs from today's (2, 28); and for a stored month of 13 the
computation returns no date at all (it raises). -/
theorem nextOccurrence_counterexample :
    nextOccurrence ⟨2023, 2, 28⟩ 2 29 = some ⟨2023, 2, 28⟩ ∧
    ¬ ((2 : Int) = (⟨2023, 2, 28⟩ : PyDate).month ∧
        (29 : Int) = (⟨2023, 2, 28⟩ : PyDate).day) ∧
    nextOccurrence ⟨2023, 2, 28⟩ 13 5 = none := by
  refine ⟨by decide, by decide, by decide⟩

/-- Claim C2 (amended): for a current date with an in-range year and a
stored month in 1..12, the next-occurrence computation returns a date
`≥` today; it equals today only when the current-year correction of the
stored (month, day) is exactly today — in particular, when the stored
pair is already a valid date this year, equality holds only if the pair
equals today's (month, day). -/
theorem nextOccurrence_ge_today (t : PyDate) (m d : Int)
    (hy1 : 1 ≤ t.year) (hy2 : t.year + 1 ≤ 9999) (hm1 : 1 ≤ m) (hm2 : m ≤ 12) :
    ∃ b, nextOccurrence t m d = some b ∧ dateLe t b ∧
      (b = t → safe_date t.year m d = some t) ∧
      (isValidDate t.year m d → b = t → m = t.month ∧ d = t.day) := by
  have hok : monthYearOk t.year m := ⟨hy1, by omega, hm1, hm2⟩
  have hok2 : monthYearOk (t.year + 1) m := ⟨by omega, by omega, hm1, hm2⟩
  have hne : nextOccurrence t m d =
      if dateLt ⟨t.year, m, max 1 (min d (daysInMonth t.year m))⟩ t
      then safe_date (t.year + 1) m d
      else some ⟨t.year, m, max 1 (min d (daysInMonth t.year m))⟩ := by
    unfold nextOccurrence
    rw [safe_date_ok _ _ _ hok]
  rw [hne]
  by_cases hlt :
      dateLt ⟨t.year, m, max 1 (min d (daysInMonth t.year m))⟩ t = true
  · rw [if_pos hlt, safe_date_ok _ _ _ hok2]
    refine ⟨_, rfl, ?_, ?_, ?_⟩
    · exact Or.inl (dateLt_of_year_lt t
        ⟨t.year + 1, m, max 1 (min d (daysInMonth (t.year + 1) m))⟩
        (lt_add_one t.year))
    · intro hbt
      exfalso
      have hyy : t.year + 1 = t.year := congrArg PyDate.year hbt
      omega
    · intro _ hbt
      exfalso
      have hyy : t.year + 1 = t.year := congrArg PyDate.year hbt
      omega
  · rw [if_neg hlt]
    refine ⟨_, rfl, dateLe_of_not_lt _ _ hlt, ?_, ?_⟩
    · intro hbt
      rw [safe_date_ok _ _ _ hok, hbt]
    · intro hv hbt
      unfold isValidDate at hv
      have hd := daysInMonth_pos t.year m
      have hmax : max 1 (min d (daysInMonth t.year m)) = d := by omega
      rw [hmax] at hbt
      exact ⟨congrArg PyDate.month hbt, congrArg PyDate.day hbt⟩

/-- Witness for `nextOccurrence_ge_today` at today = 2023-03-08 with
stored birthday Feb 30: the corrected occurrence exists and is not
before today. -/
theorem nextOccurrence_ge_today_witness :
    ∃ b, nextOccurrence T0 2 30 = some b ∧ dateLe T0 b ∧
      (b = T0 → safe_date T0.year 2 30 = some T0) ∧
      (isValidDate T0.year 2 30 → b = T0 → (2 : Int) = T0.month ∧ (30 : Int) = T0.day) :=
  nextOccurrence_ge_today T0 2 30 (by decide) (by decide) (by decide) (by decide)

/-- Claim C3 counterexample: for month 13 (or year 0) an invalid date
is not corrected to the first day of the month when the day runs out —
the fallback `date` call itself raises, so no date is returned. -/
theorem safe_date_badmonth_counterexample :
    safe_date 2023 13 5 = none ∧ safe_date 0 2 30 = none := by
  exact ⟨by decide, by decide⟩

/-- Claim C3 (amended): for a year in 1..9999 and a month in 1..12 the
correction decrements an out-of-range day to the nearest valid day,
falls back to the first of the month when the day reaches zero, and in
particular corrects Feb 30 to Feb 28 in a non-leap year and to Feb 29
in a leap year. -/
theorem safe_date_correction (y m d : Int)
    (hy : 1 ≤ y ∧ y ≤ 9999) (hm : 1 ≤ m ∧ m ≤ 12) :
    (1 ≤ d → safe_date y m d = some ⟨y, m, min d (daysInMonth y m)⟩) ∧
    (d ≤ 0 → safe_date y m d = some ⟨y, m, 1⟩) ∧
    (isLeap y = false → safe_date y 2 30 = some ⟨y, 2, 28⟩) ∧
    (isLeap y = true → safe_date y 2 30 = some ⟨y, 2, 29⟩) := by
  have hok : monthYearOk y m := ⟨hy.1, hy.2, hm.1, hm.2⟩
  have hok2 : monthYearOk y 2 := ⟨hy.1, hy.2, by omega, by omega⟩
  have hd := daysInMonth_pos y m
  refine ⟨?_, ?_, ?_, ?_⟩
  · intro h1
    rw [safe_date_ok _ _ _ hok]
    have hmax : max 1 (min d (daysInMonth y m)) = min d (daysInMonth y m) := by
      omega
    rw [hmax]
  · intro h0
    rw [safe_date_ok _ _ _ hok]
    have hmax : max 1 (min d (daysInMonth y m)) = 1 := by omega
    rw [hmax]
  · intro hl
    rw [safe_date_ok _ _ _ hok2]
    have h28 : daysInMonth y 2 = 28 := by unfold daysInMonth; simp [hl]
    rw [h28]
    norm_num
  · intro hl
    rw [safe_date_ok _ _ _ hok2]
    have h29 : daysInMonth y 2 = 29 := by unfold daysInMonth; simp [hl]
    rw [h29]
    norm_num

/-- Witness for `safe_date_correction`: Feb 30 corrects to Feb 28 in
2023 (not leap) and to Feb 29 in 2024 (leap). -/
theorem safe_date_correction_witness :
    safe_date 2023 2 30 = some ⟨2023, 2, 28⟩ ∧
    safe_date 2024 2 30 = some ⟨2024, 2, 29⟩ :=
  ⟨(safe_date_correction 2023 2 30 (by decide) (by decide)).2.2.1 (by decide),
    (safe_date_correction 2024 2 30 (by decide) (by decide)).2.2.2 (by decide)⟩

/-- Claim C4: the correction is a pure function of the input triple —
equal inputs give equal corrected dates — and is idempotent: applying
it to the components of an already-corrected date returns that date
unchanged. -/
theorem safe_date_pure_idempotent :
    (∀ y m d y2 m2 d2 : Int, y = y2 → m = m2 → d = d2 →
      safe_date y m d = safe_date y2 m2 d2) ∧
    (∀ (y m d : Int) (b : PyDate), safe_date y m d = some b →
      safe_date b.year b.month b.day = some b) := by
  constructor
  · intro y m d y2 m2 d2 h1 h2 h3
    rw [h1, h2, h3]
  · intro y m d b hb
    obtain ⟨hy, hm, hv⟩ := safe_date_some y m d b hb
    unfold isValidDate at hv
    rw [safe_date_eq]
    have hok : monthYearOk b.year b.month :=
      ⟨hv.1, hv.2.1, hv.2.2.1, hv.2.2.2.1⟩
    rw [if_pos hok]
    have hmax : max 1 (min b.day (daysInMonth b.year b.month)) = b.day := by
      obtain ⟨_, _, _, _, h5, h6⟩ := hv
      omega
    rw [hmax]

/-- Witness for `safe_date_pure_idempotent`: re-correcting the
corrected Feb 30 of 2023 (= Feb 28) leaves it unchanged. -/
theorem safe_date_pure_idempotent_witness :
    safe_date 2023 2 28 = some ⟨2023, 2, 28⟩ :=
  safe_date_pure_idempotent.2 2023 2 30 ⟨2023, 2, 28⟩ (by decide)

/-- Claim C10 counterexample: for year 0 and month 5 — a month inside
1..12 — the loop terminates but returns no valid date: every `date`
call, the fallback included, raises, contradicting the claim's
"for every year". -/
theorem safe_date_year0_counterexample : safe_date 0 5 10 = none := by
  decide

/-- Claim C10 (amended): for every year in 1..9999 and month in 1..12
the correction terminates with a valid calendar date for any integer
day (it never raises); outside that year/month range it returns no date
(the fallback `date` call raises). -/
theorem safe_date_totality (y m d : Int) :
    (monthYearOk y m →
      ∃ b, safe_date y m d = some b ∧ isValidDate b.year b.month b.day) ∧
    (¬ monthYearOk y m → safe_date y m d = none) := by
  constructor
  · intro h
    exact ⟨_, safe_date_ok y m d h,
      (safe_date_some y m d _ (safe_date_ok y m d h)).2.2⟩
  · intro h
    exact safe_date_none y m d h

/-- Witness for `safe_date_totality`: day 31 in Feb 2024 yields a valid
date. -/
theorem safe_date_totality_witness :
    ∃ b, safe_date 2024 2 31 = some b ∧ isValidDate b.year b.month b.day :=
  (safe_date_totality 2024 2 31).1 (by decide)

/-- Claim C7: `calc_age` is unknown exactly when some component is
absent or the triple is not a valid calendar date; otherwise it
subtracts the birth year from the current year and one more when
today's (month, day) precedes the birth (month, day) lexicographically;
with the spec's two examples. -/
theorem calc_age_spec (t : PyDate) (d m y : Option Int) :
    (calc_age t d m y = none ↔
      (d = none ∨ m = none ∨ y = none ∨
        ¬ isValidDate (y.getD 0) (m.getD 0) (d.getD 0))) ∧
    (∀ dd mm yy : Int, d = some dd → m = some mm → y = some yy →
      isValidDate yy mm dd →
      calc_age t d m y = some (t.year - yy -
        (if pairLt (t.month, t.day) (mm, dd) then 1 else 0))) ∧
    calc_age t none (some 5) (some 2000) = none ∧
    (pairLt (t.month, t.day) (3, 15) = true →
      calc_age t (some 15) (some 3) (some 1990) = some (t.year - 1990 - 1)) ∧
    (pairLt (t.month, t.day) (3, 15) = false →
      calc_age t (some 15) (some 3) (some 1990) = some (t.year - 1990)) := by
  refine ⟨?_, ?_, rfl, ?_, ?_⟩
  · cases d with
    | none => simp [calc_age, truthy]
    | some dd =>
      cases m with
      | none => simp [calc_age, truthy]
      | some mm =>
        cases y with
        | none => simp [calc_age, truthy]
        | some yy =>
          by_cases hz : dd = 0 ∨ mm = 0 ∨ yy = 0
          · have hv : ¬ isValidDate yy mm dd := by
              unfold isValidDate
              omega
            have htr : (truthy (some dd) && truthy (some mm) &&
                truthy (some yy)) = false := by
              unfold truthy
              rcases hz with rfl | rfl | rfl <;> simp
            unfold calc_age
            rw [htr]
            simp [hv]
          · push_neg at hz
            have htr : (truthy (some dd) && truthy (some mm) &&
                truthy (some yy)) = true := by
              unfold truthy
              simp [hz.1, hz.2.1, hz.2.2]
            unfold calc_age
            rw [htr]
            simp only [if_true, Option.getD_some]
            by_cases hv : isValidDate yy mm dd
            · rw [if_pos hv]
              simp [hv]
            · rw [if_neg hv]
              simp [hv]
  · intro dd mm yy hd hm hy hv
    subst hd; subst hm; subst hy
    have hnz : dd ≠ 0 ∧ mm ≠ 0 ∧ yy ≠ 0 := by
      unfold isValidDate at hv
      omega
    have htr : (truthy (some dd) && truthy (some mm) &&
        truthy (some yy)) = true := by
      unfold truthy
      simp [hnz.1, hnz.2.1, hnz.2.2]
    unfold calc_age
    rw [htr]
    simp only [if_true, Option.getD_some]
    rw [if_pos hv]
  · intro hp
    unfold calc_age
    simp only [truthy, Option.getD_some]
    norm_num
    exact ⟨by decide, hp⟩
  · intro hp
    unfold calc_age
    simp only [truthy, Option.getD_some]
    norm_num
    exact ⟨by decide, hp⟩

/-- Witness for `calc_age_spec`: on 2026-01-10, before March 15, a
birth date of 1990-03-15 gives age `2026 - 1990 - 1`. -/
theorem calc_age_spec_witness :
    calc_age ⟨2026, 1, 10⟩ (some 15) (some 3) (some 1990) =
      some (2026 - 1990 - 1) :=
  (calc_age_spec ⟨2026, 1, 10⟩ (some 15) (some 3) (some 1990)).2.2.2.1 (by decide)

/-- When the path is an upload path, the cleanup erases exactly the
stored name. -/
lemma safe_remove_file_some_eq (fs : List String) (path x : String)
    (h : uploadName path = some x) :
    safe_remove_file fs (some path) = fs.erase x := by
  unfold uploadName at h
  by_cases hp : "/uploads/".data.isPrefixOf path.data = true
  · rw [if_pos hp] at h
    injection h with h2
    subst h2
    simp only [safe_remove_file]
    rw [if_pos hp]
  · rw [if_neg hp] at h
    cases h

lemma safe_remove_file_subset (fs : List String) (o : Option String) :
    ∀ x ∈ safe_remove_file fs o, x ∈ fs := by
  intro x hx
  cases o with
  | none => exact hx
  | some path =>
    simp only [safe_remove_file] at hx
    by_cases hp : "/uploads/".data.isPrefixOf path.data = true
    · rw [if_pos hp] at hx
      exact List.mem_of_mem_erase hx
    · rw [if_neg hp] at hx
      exact hx

lemma safe_remove_file_nodup (fs : List String) (o : Option String)
    (h : fs.Nodup) : (safe_remove_file fs o).Nodup := by
  cases o with
  | none => exact h
  | some path =>
    simp only [safe_remove_file]
    by_cases hp : "/uploads/".data.isPrefixOf path.data = true
    · rw [if_pos hp]
      exact h.erase _
    · rw [if_neg hp]
      exact h

lemma removePhotos_cons (fs : List String) (r : PetRow) (rest : List PetRow) :
    removePhotos fs (r :: rest) =
      removePhotos (safe_remove_file fs r.photo_path) rest := rfl

lemma removePhotos_subset :
    ∀ (pets : List PetRow) (fs : List String),
      ∀ x ∈ removePhotos fs pets, x ∈ fs
  | [], fs, x, hx => hx
  | r :: rest, fs, x, hx => by
    rw [removePhotos_cons] at hx
    exact safe_remove_file_subset fs r.photo_path x
      (removePhotos_subset rest _ x hx)

lemma removePhotos_nodup :
    ∀ (pets : List PetRow) (fs : List String), fs.Nodup →
      (removePhotos fs pets).Nodup
  | [], fs, h => h
  | r :: rest, fs, h => by
    rw [removePhotos_cons]
    exact removePhotos_nodup rest _ (safe_remove_file_nodup fs r.photo_path h)

/-- Once a pet of the deleted person is handled, its photo file stays
removed through the rest of the cleanup loop (no step adds files). -/
lemma removePhotos_removes (x : String) :
    ∀ (pets : List PetRow) (fs : List String), fs.Nodup →
      ∀ q ∈ pets, ∀ path, q.photo_path = some path →
        uploadName path = some x → x ∉ removePhotos fs pets
  | [], fs, _, q, hq, _, _, _ => absurd hq (by simp)
  | r :: rest, fs, hnd, q, hq, path, hp, hu => by
    rw [removePhotos_cons]
    rcases List.mem_cons.mp hq with rfl | hq2
    · have hstep : safe_remove_file fs q.photo_path = fs.erase x := by
        rw [hp]
        exact safe_remove_file_some_eq fs path x hu
      intro hmem
      have hx : x ∈ fs.erase x := by
        rw [← hstep]
        exact removePhotos_subset rest _ x hmem
      exact (hnd.mem_erase_iff.mp hx).1 rfl
    · exact removePhotos_removes x rest (safe_remove_file fs r.photo_path)
        (safe_remove_file_nodup fs r.photo_path hnd) q hq2 path hp hu

/-- Claim C9: deleting a stored person removes every pet, child and
note row whose `person_id` references them; assuming the uploads
directory has no duplicate names, every photo file of the person's pets
and the person's avatar file (all referenced through `/uploads/` paths)
are removed from storage; and a subsequent `person_detail` lookup of
the id answers not-found. -/
theorem person_delete_cascade (db : DB) (pid : Int) (p : Person)
    (hfind : db.people.find? (fun q => q.id == pid) = some p)
    (hnd : db.files.Nodup) :
    (∀ q ∈ (person_delete db pid).pets, q.person_id ≠ pid) ∧
    (∀ c ∈ (person_delete db pid).children, c.person_id ≠ pid) ∧
    (∀ n ∈ (person_delete db pid).notes, n.person_id ≠ pid) ∧
    (∀ q ∈ db.pets, q.person_id = pid → ∀ path x, q.photo_path = some path →
      uploadName path = some x → x ∉ (person_delete db pid).files) ∧
    (∀ path x, p.avatar_path = some path → uploadName path = some x →
      x ∉ (person_delete db pid).files) ∧
    person_detail (person_delete db pid) pid = none := by
  have hdel : person_delete db pid =
      { people := db.people.filter (fun q => !(q.id == pid)),
        pets := db.pets.filter (fun q => !(q.person_id == pid)),
        children := db.children.filter (fun q => !(q.person_id == pid)),
        notes := db.notes.filter (fun q => !(q.person_id == pid)),
        files := safe_remove_file
          (removePhotos db.files (db.pets.filter (fun q => q.person_id == pid)))
          p.avatar_path } := by
    unfold person_delete
    rw [hfind]
  rw [hdel]
  refine ⟨?_, ?_, ?_, ?_, ?_, ?_⟩
  · intro q hq
    have := (List.mem_filter.mp hq).2
    simpa using this
  · intro c hc
    have := (List.mem_filter.mp hc).2
    simpa using this
  · intro n hn
    have := (List.mem_filter.mp hn).2
    simpa using this
  · intro q hq hqpid path x hpath hup
    intro hmem
    have hq2 : q ∈ db.pets.filter (fun q => q.person_id == pid) :=
      List.mem_filter.mpr ⟨hq, by simpa using hqpid⟩
    have hx1 : x ∈ removePhotos db.files
        (db.pets.filter (fun q => q.person_id == pid)) :=
      safe_remove_file_subset _ _ x hmem
    exact removePhotos_removes x
      (db.pets.filter (fun q => q.person_id == pid)) db.files hnd
      q hq2 path hpath hup hx1
  · intro path x hpath hup
    have hnd1 : (removePhotos db.files
        (db.pets.filter (fun q => q.person_id == pid))).Nodup :=
      removePhotos_nodup _ db.files hnd
    have hstep : safe_remove_file
        (removePhotos db.files (db.pets.filter (fun q => q.person_id == pid)))
        p.avatar_path =
        (removePhotos db.files
          (db.pets.filter (fun q => q.person_id == pid))).erase x := by
      rw [hpath]
      exact safe_remove_file_some_eq _ path x hup
    rw [hstep]
    intro hmem
    exact (hnd1.mem_erase_iff.mp hmem).1 rfl
  · unfold person_detail
    simp only
    rw [List.find?_eq_none]
    intro q hq
    have := (List.mem_filter.mp hq).2
    simpa using this

/-- A concrete table: person 1 owns two pets with photos, one note and
an avatar. -/
def exampleDB : DB :=
  { people := [⟨1, some 15, some 3, none, none, none, some "/uploads/a.png"⟩],
    pets := [⟨1, 1, some "/uploads/p1.png"⟩, ⟨2, 1, some "/uploads/p2.png"⟩],
    children := [],
    notes := [⟨1, 1⟩],
    files := ["a.png", "p1.png", "p2.png"] }

/-- Witness for `person_delete_cascade` on `exampleDB`: both pet rows
and the note row are gone, both photo files and the avatar file are
removed, and the lookup 404s. -/
theorem person_delete_cascade_witness :
    (∀ q ∈ (person_delete exampleDB 1).pets, q.person_id ≠ 1) ∧
    "p1.png" ∉ (person_delete exampleDB 1).files ∧
    "a.png" ∉ (person_delete exampleDB 1).files ∧
    person_detail (person_delete exampleDB 1) 1 = none := by
  have h := person_delete_cascade exampleDB 1
    ⟨1, some 15, some 3, none, none, none, some "/uploads/a.png"⟩
    (by decide) (by decide)
  refine ⟨h.1, ?_, ?_, h.2.2.2.2.2⟩
  · exact h.2.2.2.1 ⟨1, 1, some "/uploads/p1.png"⟩ (by decide) rfl
      "/uploads/p1.png" "p1.png" rfl (by decide)
  · exact h.2.2.2.2.1 "/uploads/a.png" "a.png" rfl (by decide)

end Notebook
